import Mathlib

/-
Shallow embedding of the gridsome-source-docs plugin (src/index.js).

The plugin turns a directory tree of documentation files into a typed content
graph: it derives version/section metadata and a URL path from each file's
location, registers one node per file, creates deduplicated stub nodes for
declared references, builds a per-version sidebar with prev/next links, and
applies filesystem watch events (add/change/unlink) to the graph.

Modelling conventions:
  - JS strings are Lean String; string manipulation is implemented on the
    underlying character lists with structural recursion so that concrete
    instances evaluate inside the kernel.
  - Host-platform collaborators with no internal state machine (slugify,
    mime lookup, path.relative, the md5 hash, the front-matter transformer,
    file reading) are fields of a Host record: the embedding is parametric
    in them, exactly as the plugin is parametric in its host.
  - Fallible JS code (a rejected file read, the TypeError raised when
    createDocInfo returns undefined and its result is dereferenced) is
    modelled with Except: an error means the per-file unit threw/rejected
    and performed no further mutation.
  - Front-matter field values that reference resolution consumes are
    modelled as JS scalars plus one level of arrays of scalars, which covers
    every shape the code distinguishes: Array.isArray on the value, then
    per-element processing; truthiness of scalars.
-/

/-! ## JS values -/

/-- Scalar JavaScript value as found in front-matter fields. -/
inductive JsScalar where
  | str (s : String)
  | num (n : Int)
  | bool (b : Bool)
  | null
deriving DecidableEq

/-- Field value: a scalar or an array of scalars (Array.isArray dispatch). -/
inductive JsValue where
  | scalar (v : JsScalar)
  | arr (elems : List JsScalar)
deriving DecidableEq

/-- JS truthiness of a scalar: empty string, 0, false and null are falsy. -/
def JsScalar.truthy : JsScalar → Bool
  | .str s => s ≠ ""
  | .num n => n ≠ 0
  | .bool b => b
  | .null => false

/-- JS truthiness of a field value; every array (even empty) is truthy. -/
def JsValue.truthy : JsValue → Bool
  | .scalar v => v.truthy
  | .arr _ => true

/-- JS string coercion of a scalar, as used by template-literal interpolation. -/
def JsScalar.jsString : JsScalar → String
  | .str s => s
  | .num n => toString n
  | .bool b => cond b "true" "false"
  | .null => "null"

/-! ## String helpers (character-level implementations of the JS operations) -/

/-- Split a character list at a separator, JS String.prototype.split style:
the empty input yields one empty segment. -/
def charSplitGo (sep : Char) : List Char → List Char → List (List Char)
  | [], acc => [acc.reverse]
  | c :: cs, acc =>
    if c = sep then acc.reverse :: charSplitGo sep cs [] else charSplitGo sep cs (c :: acc)

/-- JS s.split(sep) for a one-character separator. -/
def charSplit (sep : Char) (s : String) : List String :=
  (charSplitGo sep s.data []).map String.mk

/-- Join segments with a separator, JS Array.prototype.join style. -/
def joinSep (sep : String) : List String → String
  | [] => ""
  | [x] => x
  | x :: xs => x ++ sep ++ joinSep sep xs

/-- lodash trim(s, slash): strip leading and trailing slash characters. -/
def trimSlashes (s : String) : String :=
  String.mk (((s.data.dropWhile (· = '/')).reverse.dropWhile (· = '/')).reverse)

/-- lodash trimEnd(s, slash): strip trailing slash characters. -/
def trimEndSlashes (s : String) : String :=
  String.mk ((s.data.reverse.dropWhile (· = '/')).reverse)

/-- slash(file): convert backslashes to forward slashes. -/
def slash (s : String) : String :=
  String.mk (s.data.map fun c => if c = '\\' then '/' else c)

/-- Remove the first occurrence of a character, JS s.replace(c, empty). -/
def removeFirstChar (c : Char) : List Char → List Char
  | [] => []
  | x :: xs => if x = c then xs else x :: removeFirstChar c xs

/-- JS ext.replace(dot, empty string): drops the first dot. -/
def replaceFirstDot (s : String) : String :=
  String.mk (removeFirstChar '.' s.data)

/-- Node path.dirname for relative posix paths: everything before the last
slash, or a lone dot when the path has a single segment. -/
def pathDirname (p : String) : String :=
  match (charSplit '/' p).dropLast with
  | [] => "."
  | segs => joinSep "/" segs

/-- Node path.join(a, b) for an absolute base and a relative tail. -/
def pathJoin (a b : String) : String := a ++ "/" ++ b

/-- Result of Node path.parse restricted to the fields the plugin reads. -/
structure ParsedFile where
  dir : String
  name : String
  ext : String
deriving DecidableEq

/-- Extension of a base name per Node path.parse: from the last dot, unless
that dot is the leading character of the base name. -/
def extOfBase (base : String) : String :=
  match charSplit '.' base with
  | [] => ""
  | [_] => ""
  | [h, t] => if h = "" then "" else "." ++ t
  | parts => "." ++ ((parts.getLast?).getD "")

/-- Node path.parse(file) giving dir, name and ext. -/
def pathParse (p : String) : ParsedFile :=
  let dir := pathDirname p
  let base := ((charSplit '/' p).getLast?).getD ""
  let ext := extOfBase base
  { dir := dir
    name := String.mk (base.data.take (base.data.length - ext.data.length))
    ext := ext }

/-- Decidable equality for Except results, used to evaluate the embedding
at concrete inputs. -/
instance {ε α : Type} [DecidableEq ε] [DecidableEq α] : DecidableEq (Except ε α) := fun x y =>
  match x, y with
  | .ok a, .ok b => decidable_of_iff (a = b) (by simp)
  | .error a, .error b => decidable_of_iff (a = b) (by simp)
  | .ok _, .error _ => isFalse fun h => Except.noConfusion h
  | .error _, .ok _ => isFalse fun h => Except.noConfusion h

/-! ## Data model -/

/-- fileInfo subrecord of a node. -/
structure FileInfo where
  extension : String
  directory : String
  path : String
  name : String
deriving DecidableEq

/-- internal subrecord of a node; origin is the absolute source path and is
the lookup key used by unlink events. -/
structure NodeInternal where
  mimeType : String
  content : String
  origin : String
deriving DecidableEq

/-- Node record produced by createNodeOptions. The JS field named section is
called sectionName here because section is a Lean keyword. -/
structure NodeRecord where
  id : String
  path : String
  fileInfo : FileInfo
  version : Option String
  sectionName : Option String
  internal : NodeInternal
deriving DecidableEq

/-- Normalized reference specification. -/
structure RefSpec where
  typeName : String
  create : Bool
deriving DecidableEq

/-- Declared reference before normalization: a bare type-name string, or an
object whose typeName may be absent and whose create flag is an arbitrary
scalar to be coerced by truthiness. -/
inductive RefInput where
  | str (name : String)
  | obj (typeName : Option String) (create : JsScalar)
deriving DecidableEq

/-- Stub node created by addRefNode: id and title both carry the value. -/
structure StubNode where
  id : JsScalar
  title : JsScalar
deriving DecidableEq

/-- Plugin configuration (defaultOptions plus the host permalink config).
options.pathPrefix is pathPrefixStr here, with undefined modelled as the
empty string: lodash trim maps undefined and the empty string to the same
result. refs keeps declaration order as an association list. -/
structure Config where
  context : String
  pathPrefixStr : String
  trailingSlash : Bool
  index : List String
  typeName : String
  refs : List (String × RefInput)

/-- Host-platform collaborators the plugin calls but does not define:
actions.slugify, mime.lookup (none when unrecognized), path.relative,
the md5 hex digest, the transformer that extracts front-matter fields from
raw content when a node is added, and the filesystem read (none models a
rejected read). -/
structure Host where
  slugify : String → String
  mimeLookup : String → Option String
  pathRelative : String → String → String
  md5hex : String → String
  transform : String → List (String × JsValue)
  fsRead : String → Option String

/-- Plugin run state: the typed collection of file nodes, the refsCache key
set, and the stub nodes added to target collections (tagged with their
collection type name, in creation order). -/
structure PluginState where
  graph : List NodeRecord
  cache : List String
  stubs : List (String × StubNode)
deriving DecidableEq

/-! ## PathResolver -/

/-- Version/section metadata derived from directory depth. JS field section
is sectionName here. -/
structure DocInfo where
  version : Option String
  sectionName : Option String
deriving DecidableEq

/-- createDocInfo(file): split the dirname on slashes; one segment gives a
version, two give version and section, and any other count falls through
the switch and returns undefined (none). -/
def createDocInfo (file : String) : Option DocInfo :=
  let dir := pathDirname file
  match charSplit '/' dir with
  | [v] => some { version := some v, sectionName := none }
  | [v, s] => some { version := some v, sectionName := some s }
  | _ => none

/-- createPath(dir and name): slugify each directory segment, append the
slugified name unless it is an index name, prepend the trimmed non-empty
prefix, join non-empty segments with slashes, strip trailing slashes, add
the configured suffix, and coerce the empty result to the root path. -/
def createPath (host : Host) (cfg : Config) (dir name : String) : String :=
  let pfx := trimSlashes cfg.pathPrefixStr
  let sfx := if cfg.trailingSlash then "/" else ""
  let segs0 := (charSplit '/' (slash dir)).map host.slugify
  let segs1 := if cfg.index.contains name then segs0 else segs0 ++ [host.slugify name]
  let segs2 := if pfx ≠ "" then pfx :: segs1 else segs1
  let res := trimEndSlashes ("/" ++ joinSep "/" (segs2.filter (fun s => s ≠ "")))
  let out := res ++ sfx
  if out = "" then "/" else out

/-- createNodeOptions(file): read the file (a failed read rejects the unit),
detect the mime type with the synthetic fallback, derive doc info - the JS
code then dereferences docInfo.version, which throws a TypeError when
createDocInfo returned undefined, so that case is also an error - and
assemble the full node record. -/
def createNodeOptions (host : Host) (cfg : Config) (file : String) :
    Except String NodeRecord :=
  let relPath := host.pathRelative cfg.context file
  let origin := pathJoin cfg.context file
  match host.fsRead origin with
  | none => .error ("read failed: " ++ origin)
  | some content =>
    let parsed := pathParse file
    let mimeType := (host.mimeLookup file).getD ("application/x-" ++ replaceFirstDot parsed.ext)
    match createDocInfo file with
    | none => .error ("TypeError: docInfo undefined for " ++ file)
    | some docInfo =>
      .ok
        { id := host.md5hex relPath
          path := createPath host cfg parsed.dir parsed.name
          fileInfo :=
            { extension := parsed.ext
              directory := parsed.dir
              path := file
              name := parsed.name }
          version := docInfo.version
          sectionName := docInfo.sectionName
          internal := { mimeType := mimeType, content := content, origin := origin } }

/-! ## ReferenceResolver -/

/-- normalizeRefs body for one declared reference: a bare string becomes an
object with create false; a falsy typeName (absent or empty) is replaced by
the collection's own type name; create is coerced by truthiness. -/
def normalizeRef (defaultTypeName : String) (r : RefInput) : RefSpec :=
  let t : Option String :=
    match r with
    | .str s => some s
    | .obj t _ => t
  let c : JsScalar :=
    match r with
    | .str _ => .bool false
    | .obj _ c => c
  { typeName :=
      match t with
      | none => defaultTypeName
      | some s => if s = "" then defaultTypeName else s
    create := c.truthy }

/-- normalizeRefs: mapValues of normalizeRef over the declared references,
performed once when collections are created. -/
def normalizeRefs (defaultTypeName : String) (refs : List (String × RefInput)) :
    List (String × RefSpec) :=
  refs.map fun fr => (fr.1, normalizeRef defaultTypeName fr.2)

/-- refsCache key: template-literal concatenation of typeName, fieldName and
the value with dash separators. -/
def refCacheKey (typeName fieldName : String) (v : JsScalar) : String :=
  typeName ++ "-" ++ fieldName ++ "-" ++ v.jsString

/-- addRefNode: when the key is not cached and the value is truthy, mark the
key and add the stub node with the value as id and title to the target
collection; otherwise do nothing. -/
def addRefNode (typeName fieldName : String) (v : JsScalar) (st : PluginState) :
    PluginState :=
  let key := refCacheKey typeName fieldName v
  if !(st.cache.contains key) && v.truthy then
    { st with
      cache := key :: st.cache
      stubs := st.stubs ++ [(typeName, { id := v, title := v })] }
  else st

/-- Field lookup on the transformed node, JS node bracket fieldName; absent
fields are undefined. -/
def lookupField (fields : List (String × JsValue)) (name : String) : Option JsValue :=
  (fields.find? (fun p => p.1 = name)).map (fun p => p.2)

/-- createNodeRefs: for each declared (normalized) reference, when the node
carries a truthy value for the field and create is set, resolve an array
element-wise and a scalar directly through addRefNode. -/
def createNodeRefs (refs : List (String × RefSpec)) (fields : List (String × JsValue))
    (st : PluginState) : PluginState :=
  refs.foldl
    (fun acc fr =>
      match lookupField fields fr.1 with
      | none => acc
      | some v =>
        if v.truthy && fr.2.create then
          match v with
          | .arr xs => xs.foldl (fun a x => addRefNode fr.2.typeName fr.1 x a) acc
          | .scalar s => addRefNode fr.2.typeName fr.1 s acc
        else acc)
    st

/-! ## NodeIngestor and WatchSync -/

/-- collection.addNode: append the record to the collection. -/
def addNodeToGraph (st : PluginState) (n : NodeRecord) : PluginState :=
  { st with graph := st.graph ++ [n] }

/-- Modelled from the spec: the host collection's updateNode, which the
repository only calls, addresses the existing node by the same id and
replaces all fields wholesale, not merged. -/
def updateNodeInGraph (st : PluginState) (n : NodeRecord) : PluginState :=
  { st with graph := st.graph.map fun m => if m.id = n.id then n else m }

/-- Modelled from the spec: the host collection's removeNode(filter), which
the repository only calls, deletes the nodes matching the filter and is a
no-op when none match. The plugin always filters on internal.origin. -/
def removeNodeByOrigin (st : PluginState) (originPath : String) : PluginState :=
  { st with graph := st.graph.filter fun m => m.internal.origin ≠ originPath }

/-- Reference resolution for a freshly added or updated node: the normalized
refs are matched against the host-transformed fields of the node's content. -/
def applyNodeRefs (host : Host) (cfg : Config) (st : PluginState) (n : NodeRecord) :
    PluginState :=
  createNodeRefs (normalizeRefs cfg.typeName cfg.refs) (host.transform n.internal.content) st

/-- One bulk-ingestion unit (the body of the createNodes map): compute the
node options, add the node, resolve its references. An error leaves the
state untouched: the unit rejected before any mutation. -/
def ingestOne (host : Host) (cfg : Config) (file : String) (st : PluginState) :
    Except String PluginState :=
  (createNodeOptions host cfg file).map fun opts =>
    applyNodeRefs host cfg (addNodeToGraph st opts) opts

/-- createNodes: Promise.all fan-out over the globbed files. Every per-file
unit runs to completion independently, so the units that resolve commit
their node and reference mutations even when a sibling rejects (mutation
order is modelled as list order; the units are independent). The awaited
Promise.all rejects as soon as any unit rejects, so the operation's result
is the first error when one exists. -/
def createNodes (host : Host) (cfg : Config) (files : List String) (st : PluginState) :
    PluginState × Except String Unit :=
  (files.foldl
      (fun acc f =>
        match ingestOne host cfg f acc with
        | .ok s => s
        | .error _ => acc)
      st,
    match files.findSome?
        (fun f =>
          match createNodeOptions host cfg f with
          | .error e => some e
          | .ok _ => none) with
    | some e => .error e
    | none => .ok ())

/-- Filesystem watch event delivered by chokidar, keyed by a path relative
to the configured context. -/
inductive FsEvent where
  | add (file : String)
  | change (file : String)
  | unlink (file : String)

/-- Watch add handler: same per-file path as bulk ingestion, on the
slash-normalized file name. -/
def stepAdd (host : Host) (cfg : Config) (file : String) (st : PluginState) :
    Except String PluginState :=
  ingestOne host cfg (slash file) st

/-- Watch change handler: recompute the full node options and updateNode by
id, then resolve references again. -/
def stepChange (host : Host) (cfg : Config) (file : String) (st : PluginState) :
    Except String PluginState :=
  (createNodeOptions host cfg (slash file)).map fun opts =>
    applyNodeRefs host cfg (updateNodeInGraph st opts) opts

/-- Watch unlink handler: removeNode filtered on internal.origin equal to
the joined absolute path. It never consults the refsCache or the stubs. -/
def stepUnlink (cfg : Config) (file : String) (st : PluginState) : PluginState :=
  removeNodeByOrigin st (pathJoin cfg.context (slash file))

/-- One watch event applied to the run state. A rejected add or change
handler has performed no mutation (the rejection happens at the file read
or at the docInfo dereference, before addNode or updateNode). -/
def stepEvent (host : Host) (cfg : Config) (st : PluginState) : FsEvent → PluginState
  | .add f =>
    match stepAdd host cfg f st with
    | .ok s => s
    | .error _ => st
  | .change f =>
    match stepChange host cfg f st with
    | .ok s => s
    | .error _ => st
  | .unlink f => stepUnlink cfg f st

/-- Sequence of watch events folded over the run state. -/
def runEvents (host : Host) (cfg : Config) (events : List FsEvent) (st : PluginState) :
    PluginState :=
  events.foldl (stepEvent host cfg) st

/-! ## SidebarBuilder -/

/-- Projection of a graph node as the sidebar pass reads and mutates it:
its path, its externally supplied weight, and the navigation links written
in place by sortSection. -/
structure SNode where
  path : String
  weight : Int
  prev : Option String := none
  next : Option String := none
deriving DecidableEq

/-- The comparator sortSection passes to Array.prototype.sort: 1 when the
left weight is greater, else -1. It never returns 0, so on two nodes with
tied weights it reports each as strictly preceding the other: it is not a
consistent comparison function in the ECMAScript sense whenever weights
tie. -/
def jsComparator (a b : SNode) : Int :=
  if a.weight > b.weight then 1 else -1

/-
sortSection first runs nodes.sort with jsComparator and then walks the
sorted array assigning links. Because jsComparator is inconsistent on tied
weights, ES2019 leaves the sort order implementation-defined there (the
stability requirement only covers consistent comparators; V8's TimSort for
instance reverses a run of tied nodes), so the sorted order is not a
function of the source alone and is not modelled as a definition. The
link-assignment loop that follows the sort is deterministic and is
modelled below (linkRest and linkChain) over whatever array the host
engine's sort produced.
-/

/-- Link-assignment loop of sortSection, from the second element on: each
node receives prev pointing at its predecessor's path, and additionally
next pointing at its successor's path while a successor exists. -/
def linkRest (prevPath : String) : List SNode → List SNode
  | [] => []
  | [n] => [{ n with prev := some prevPath }]
  | a :: b :: rest =>
    { a with prev := some prevPath, next := some b.path } :: linkRest a.path (b :: rest)

/-- Link-assignment loop of sortSection: the first node receives only next
(and only when a successor exists); later nodes are handled by linkRest. -/
def linkChain : List SNode → List SNode
  | [] => []
  | [n] => [n]
  | a :: b :: rest => { a with next := some b.path } :: linkRest a.path (b :: rest)

/-- Adjacent-pair navigation invariant: the left node's next and the right
node's prev reference each other's paths. -/
def linkRel (a b : SNode) : Prop := a.next = some b.path ∧ b.prev = some a.path

/-! ## Witness fixtures -/

/-- Concrete host for witnesses: identity slugify and hash, no recognized
mime types, no front-matter fields, every read succeeds. -/
def sampleHost : Host :=
  { slugify := id
    mimeLookup := fun _ => none
    pathRelative := fun _ f => f
    md5hex := id
    transform := fun _ => []
    fsRead := fun _ => some "content" }

/-- Concrete configuration for witnesses, matching defaultOptions. -/
def sampleCfg : Config :=
  { context := "ctx"
    pathPrefixStr := ""
    trailingSlash := false
    index := ["index"]
    typeName := "FileNode"
    refs := [] }

/-- Initial run state: empty graph, empty refsCache, no stubs. -/
def emptyState : PluginState := { graph := [], cache := [], stubs := [] }

/-! ## C1 -/

/-- C1: metadata derivation splits the file's directory on the separator;
depth 1 yields a version, depth 2 yields version and section. For any other
depth createDocInfo returns undefined, and createNodeOptions then
dereferences docInfo.version, so the per-file unit throws a TypeError and
no node is created at all - contradicting the claim that the node is still
created with both fields absent. -/
theorem c1_docInfo_depth :
    createDocInfo "v1/page.md" = some { version := some "v1", sectionName := none } ∧
    createDocInfo "v1/guides/page.md" =
      some { version := some "v1", sectionName := some "guides" } ∧
    createDocInfo "a/b/c/page.md" = none ∧
    ∀ (host : Host) (cfg : Config),
      (createNodeOptions host cfg "a/b/c/page.md").isOk = false := by
  refine ⟨by decide, by decide, by decide, ?_⟩
  intro host cfg
  simp only [createNodeOptions]
  cases h : host.fsRead (pathJoin cfg.context "a/b/c/page.md") with
  | none =>
    simp only [h]
    rfl
  | some content =>
    simp only [h, show createDocInfo "a/b/c/page.md" = none from by decide]
    rfl

/-- C1 witness: the failing input evaluated at the concrete sample host. -/
theorem c1_docInfo_depth_witness :
    (createNodeOptions sampleHost sampleCfg "a/b/c/page.md").isOk = false :=
  c1_docInfo_depth.2.2.2 sampleHost sampleCfg

/-! ## C2 -/

/-- C2 counterexample: for directory docs over v1 with name getting-started,
no prefix and identity slugify, the code computes /docs/v1/getting-started,
not the /v1/getting-started the claim states (the directory's first segment
is slugified and kept, never dropped). -/
theorem c2_path_counterexample :
    createPath sampleHost sampleCfg "docs/v1" "getting-started" =
      "/docs/v1/getting-started" ∧
    ("/docs/v1/getting-started" : String) ≠ "/v1/getting-started" := by
  exact ⟨by decide, by decide⟩

/-- C2 amended: path computation slugifies each directory segment, appends
the slugified base name unless it is an index name (any index name yields
the directory's own path), prepends a non-empty prefix, joins with slashes
and maps the empty result to the root path; the two concrete examples give
/docs/v1/getting-started and /docs/v1. -/
theorem c2_path_amended :
    createPath sampleHost sampleCfg "docs/v1" "getting-started" =
      "/docs/v1/getting-started" ∧
    createPath sampleHost sampleCfg "docs/v1" "index" = "/docs/v1" ∧
    createPath sampleHost sampleCfg "" "index" = "/" ∧
    createPath sampleHost { sampleCfg with pathPrefixStr := "/p/" } "docs/v1" "index" =
      "/p/docs/v1" ∧
    ∀ (host : Host) (cfg : Config) (dir n m : String),
      cfg.index.contains n = true → cfg.index.contains m = true →
      createPath host cfg dir n = createPath host cfg dir m := by
  refine ⟨by decide, by decide, by decide, by decide, ?_⟩
  intro host cfg dir n m hn hm
  have hn' : n ∈ cfg.index := by simpa using hn
  have hm' : m ∈ cfg.index := by simpa using hm
  simp [createPath, hn', hm']

/-- Configuration with two index names, for the C2 witness. -/
def twoIndexCfg : Config := { sampleCfg with index := ["index", "readme"] }

/-- C2 witness: two distinct index names produce the same path. -/
theorem c2_path_amended_witness :
    createPath sampleHost twoIndexCfg "docs/v1" "index" =
      createPath sampleHost twoIndexCfg "docs/v1" "readme" :=
  c2_path_amended.2.2.2.2 sampleHost twoIndexCfg "docs/v1" "index" "readme"
    (by decide) (by decide)

/-! ## C8 -/

/-- C8: reference-spec normalization maps a bare string name to an object
with that type name and create false; an object form defaults an absent
typeName to the configured default and coerces create by truthiness; and
normalizeRefs applies this to every declared reference. -/
theorem c8_normalizeRefs :
    (∀ (dflt name : String), name ≠ "" →
      normalizeRef dflt (.str name) = { typeName := name, create := false }) ∧
    (∀ (dflt : String) (c : JsScalar),
      normalizeRef dflt (.obj none c) = { typeName := dflt, create := c.truthy }) ∧
    (∀ (dflt t : String) (c : JsScalar), t ≠ "" →
      normalizeRef dflt (.obj (some t) c) = { typeName := t, create := c.truthy }) ∧
    ∀ (dflt : String) (refs : List (String × RefInput)),
      normalizeRefs dflt refs = refs.map fun fr => (fr.1, normalizeRef dflt fr.2) := by
  refine ⟨?_, ?_, ?_, ?_⟩
  · intro dflt name h
    simp [normalizeRef, h, JsScalar.truthy]
  · intro dflt c
    simp [normalizeRef]
  · intro dflt t c h
    simp [normalizeRef, h]
  · intro dflt refs
    rfl

/-- C8 witness: the three normalization cases at concrete inputs. -/
theorem c8_normalizeRefs_witness :
    normalizeRef "FileNode" (.str "Author") =
      { typeName := "Author", create := false } ∧
    normalizeRef "FileNode" (.obj none (.bool true)) =
      { typeName := "FileNode", create := true } ∧
    normalizeRef "FileNode" (.obj (some "Author") (.num 1)) =
      { typeName := "Author", create := true } :=
  ⟨c8_normalizeRefs.1 "FileNode" "Author" (by decide),
   c8_normalizeRefs.2.1 "FileNode" (.bool true),
   c8_normalizeRefs.2.2.1 "FileNode" "Author" (.num 1) (by decide)⟩

/-! ## C10 -/

/-- C10: reference resolution creates stubs only for truthy values. A falsy
value never fires addRefNode (no stub, no cache mark); a falsy scalar field
is skipped entirely; a falsy element of an array field is skipped while its
truthy siblings are processed. -/
theorem c10_falsy_no_stub :
    (∀ (t f : String) (v : JsScalar) (st : PluginState),
      v.truthy = false → addRefNode t f v st = st) ∧
    createNodeRefs [("author", { typeName := "Author", create := true })]
      [("author", .scalar (.str ""))] emptyState = emptyState ∧
    createNodeRefs [("author", { typeName := "Author", create := true })]
      [("author", .arr [.str "", .str "x", .null])] emptyState =
      { graph := []
        cache := ["Author-author-x"]
        stubs := [("Author", { id := .str "x", title := .str "x" })] } := by
  refine ⟨?_, by decide, by decide⟩
  intro t f v st h
  simp [addRefNode, h]

/-- C10 witness: a falsy null value fires no mutation at a concrete state. -/
theorem c10_falsy_no_stub_witness :
    addRefNode "Author" "author" .null emptyState = emptyState :=
  c10_falsy_no_stub.1 "Author" "author" .null emptyState (by decide)

/-! ## C6 -/

/-- C6: an unlink event deletes exactly the nodes whose internal.origin is
the removed file's absolute path; when nothing matches the state is
returned unchanged, and the handler is a total function, so no error is
raised in either case. -/
theorem c6_unlink_exact :
    ∀ (cfg : Config) (file : String) (st : PluginState),
      (∀ n : NodeRecord,
        n ∈ (stepUnlink cfg file st).graph ↔
          n ∈ st.graph ∧ n.internal.origin ≠ pathJoin cfg.context (slash file)) ∧
      ((∀ n ∈ st.graph, n.internal.origin ≠ pathJoin cfg.context (slash file)) →
        stepUnlink cfg file st = st) := by
  intro cfg file st
  constructor
  · intro n
    simp [stepUnlink, removeNodeByOrigin, List.mem_filter]
  · intro h
    have hfix : (stepUnlink cfg file st).graph = st.graph := by
      simp only [stepUnlink, removeNodeByOrigin]
      apply List.filter_eq_self.mpr
      intro a ha
      simpa using h a ha
    have hshape :
        stepUnlink cfg file st =
          { graph := (stepUnlink cfg file st).graph
            cache := st.cache
            stubs := st.stubs } := rfl
    rw [hshape, hfix]

/-- Graph with a single node at origin ctx slash v1 slash a.md, for the C6
witness. -/
def unlinkWitnessState : PluginState :=
  { graph :=
      [{ id := "n1"
         path := "/v1/a"
         fileInfo := { extension := ".md", directory := "v1", path := "v1/a.md", name := "a" }
         version := some "v1"
         sectionName := none
         internal := { mimeType := "text/markdown", content := "c", origin := "ctx/v1/a.md" } }]
    cache := []
    stubs := [] }

/-- C6 witness: an unlink for an unknown path leaves the concrete state
unchanged. -/
theorem c6_unlink_exact_witness :
    stepUnlink sampleCfg "v1/other.md" unlinkWitnessState = unlinkWitnessState :=
  (c6_unlink_exact sampleCfg "v1/other.md" unlinkWitnessState).2 (by decide)

/-! ## C5 -/

/-- One addRefNode invocation, identified by its (typeName, fieldName,
value) triple. -/
structure RefCall where
  typeName : String
  fieldName : String
  value : JsScalar
deriving DecidableEq

/-- Cache key of a call, exactly as addRefNode computes it. -/
def RefCall.key (c : RefCall) : String :=
  refCacheKey c.typeName c.fieldName c.value

/-- Stub entry a fired call appends, exactly as addRefNode builds it. -/
def RefCall.stub (c : RefCall) : String × StubNode :=
  (c.typeName, { id := c.value, title := c.value })

/-- Any sequence of addRefNode invocations folded over the run state. -/
def runRefCalls (st : PluginState) (calls : List RefCall) : PluginState :=
  calls.foldl (fun s c => addRefNode c.typeName c.fieldName c.value s) st

/-- Replay of addRefNode's guard over a call sequence: the sublist of calls
that actually fire (cache miss on the key and a truthy value). -/
def refCreationLog (st : PluginState) : List RefCall → List RefCall
  | [] => []
  | c :: rest =>
    (if !(st.cache.contains (RefCall.key c)) && c.value.truthy then [c] else []) ++
      refCreationLog (addRefNode c.typeName c.fieldName c.value st) rest

theorem cache_contains_iff (l : List String) (k : String) :
    l.contains k = true ↔ k ∈ l := by
  constructor
  · intro h
    exact List.elem_iff.mp h
  · intro h
    exact List.elem_iff.mpr h

theorem mem_cache_addRefNode (t f : String) (v : JsScalar) (st : PluginState)
    (k : String) (h : k ∈ st.cache) : k ∈ (addRefNode t f v st).cache := by
  simp only [addRefNode]
  split
  · exact List.mem_cons_of_mem _ h
  · exact h

theorem addRefNode_cache_of_fired (t f : String) (v : JsScalar) (st : PluginState)
    (h : (!(st.cache.contains (refCacheKey t f v)) && v.truthy) = true) :
    (addRefNode t f v st).cache = refCacheKey t f v :: st.cache := by
  unfold addRefNode
  rw [if_pos h]

theorem addRefNode_of_not_fired (t f : String) (v : JsScalar) (st : PluginState)
    (h : ¬((!(st.cache.contains (refCacheKey t f v)) && v.truthy) = true)) :
    addRefNode t f v st = st := by
  unfold addRefNode
  rw [if_neg h]

theorem addRefNode_stubs_of_fired (t f : String) (v : JsScalar) (st : PluginState)
    (h : (!(st.cache.contains (refCacheKey t f v)) && v.truthy) = true) :
    (addRefNode t f v st).stubs = st.stubs ++ [(t, { id := v, title := v })] := by
  unfold addRefNode
  rw [if_pos h]

theorem log_countP_of_mem :
    ∀ (calls : List RefCall) (st : PluginState) (k : String), k ∈ st.cache →
      (refCreationLog st calls).countP (fun c => RefCall.key c == k) = 0
  | [], _, _, _ => rfl
  | c :: rest, st, k, hk => by
    unfold refCreationLog
    rw [List.countP_append,
      log_countP_of_mem rest (addRefNode c.typeName c.fieldName c.value st) k
        (mem_cache_addRefNode _ _ _ _ _ hk)]
    by_cases hf : (!(st.cache.contains (RefCall.key c)) && c.value.truthy) = true
    · rw [if_pos hf]
      have hne : ¬(RefCall.key c = k) := by
        intro he
        have hnc : st.cache.contains (RefCall.key c) = false := by
          cases hcc : st.cache.contains (RefCall.key c) with
          | false => rfl
          | true => rw [hcc] at hf; simp at hf
        rw [he] at hnc
        rw [(cache_contains_iff st.cache k).mpr hk] at hnc
        exact Bool.noConfusion hnc
      simp [List.countP_cons, hne]
    · rw [if_neg hf]
      simp

theorem log_countP_le_one :
    ∀ (calls : List RefCall) (st : PluginState) (k : String),
      (refCreationLog st calls).countP (fun c => RefCall.key c == k) ≤ 1
  | [], _, _ => by simp [refCreationLog]
  | c :: rest, st, k => by
    unfold refCreationLog
    rw [List.countP_append]
    by_cases hf : (!(st.cache.contains (RefCall.key c)) && c.value.truthy) = true
    · by_cases hk : RefCall.key c = k
      · have hmem : k ∈ (addRefNode c.typeName c.fieldName c.value st).cache := by
          rw [addRefNode_cache_of_fired _ _ _ _ hf, ← hk]
          exact List.mem_cons_self _ _
        rw [log_countP_of_mem rest _ k hmem, if_pos hf]
        simp [List.countP_cons, hk]
      · rw [if_pos hf]
        have : (List.countP (fun c' => RefCall.key c' == k) [c]) = 0 := by
          simp [List.countP_cons, hk]
        rw [this]
        simpa using log_countP_le_one rest (addRefNode c.typeName c.fieldName c.value st) k
    · rw [if_neg hf]
      simpa using log_countP_le_one rest (addRefNode c.typeName c.fieldName c.value st) k

theorem runRefCalls_stubs :
    ∀ (calls : List RefCall) (st : PluginState),
      (runRefCalls st calls).stubs = st.stubs ++ (refCreationLog st calls).map RefCall.stub
  | [], st => by simp [runRefCalls, refCreationLog]
  | c :: rest, st => by
    unfold runRefCalls refCreationLog
    simp only [List.foldl_cons]
    have ih := runRefCalls_stubs rest (addRefNode c.typeName c.fieldName c.value st)
    by_cases hf : (!(st.cache.contains (RefCall.key c)) && c.value.truthy) = true
    · rw [if_pos hf]
      have : (runRefCalls (addRefNode c.typeName c.fieldName c.value st) rest).stubs =
          (addRefNode c.typeName c.fieldName c.value st).stubs ++
            (refCreationLog (addRefNode c.typeName c.fieldName c.value st) rest).map
              RefCall.stub := ih
      rw [show (List.foldl (fun s c => addRefNode c.typeName c.fieldName c.value s)
            (addRefNode c.typeName c.fieldName c.value st) rest) =
          runRefCalls (addRefNode c.typeName c.fieldName c.value st) rest from rfl, this,
        addRefNode_stubs_of_fired _ _ _ _ hf]
      simp [RefCall.stub]
    · rw [if_neg hf]
      rw [show (List.foldl (fun s c => addRefNode c.typeName c.fieldName c.value s)
            (addRefNode c.typeName c.fieldName c.value st) rest) =
          runRefCalls (addRefNode c.typeName c.fieldName c.value st) rest from rfl, ih,
        addRefNode_of_not_fired _ _ _ _ hf]
      simp

theorem createNodeRefs_nocreate :
    ∀ (refs : List (String × RefSpec)) (fields : List (String × JsValue)) (st : PluginState),
      (∀ fr ∈ refs, fr.2.create = false) → createNodeRefs refs fields st = st
  | [], _, _, _ => rfl
  | fr :: rest, fields, st, h => by
    unfold createNodeRefs
    simp only [List.foldl_cons]
    have hfr : fr.2.create = false := h fr (List.mem_cons_self _ _)
    have hstep :
        (match lookupField fields fr.1 with
          | none => st
          | some v =>
            if v.truthy && fr.2.create then
              match v with
              | .arr xs => xs.foldl (fun a x => addRefNode fr.2.typeName fr.1 x a) st
              | .scalar s => addRefNode fr.2.typeName fr.1 s st
            else st) = st := by
      cases lookupField fields fr.1 with
      | none => rfl
      | some v => simp [hfr]
    rw [hstep]
    exact createNodeRefs_nocreate rest fields st fun g hg => h g (List.mem_cons_of_mem _ hg)

/-- C5: stub creation is deduplicated per (typeName, fieldName, value)
triple: the stubs a call sequence appends are exactly one per fired guard,
no triple fires more than once, stubs are created only when create is true,
and ingesting two nodes that both carry author jane under an Author
create-true reference leaves exactly one Author stub with id jane. -/
theorem c5_stub_dedup :
    (∀ (st : PluginState) (calls : List RefCall),
      (runRefCalls st calls).stubs = st.stubs ++ (refCreationLog st calls).map RefCall.stub) ∧
    (∀ (st : PluginState) (calls : List RefCall) (c : RefCall),
      (refCreationLog st calls).count c ≤ 1) ∧
    (∀ (refs : List (String × RefSpec)) (fields : List (String × JsValue))
        (st : PluginState),
      (∀ fr ∈ refs, fr.2.create = false) → createNodeRefs refs fields st = st) ∧
    createNodeRefs [("author", { typeName := "Author", create := true })]
        [("author", .scalar (.str "jane"))]
        (createNodeRefs [("author", { typeName := "Author", create := true })]
          [("author", .scalar (.str "jane"))] emptyState) =
      { graph := []
        cache := ["Author-author-jane"]
        stubs := [("Author", { id := .str "jane", title := .str "jane" })] } := by
  refine ⟨fun st calls => runRefCalls_stubs calls st, ?_, createNodeRefs_nocreate, by decide⟩
  intro st calls c
  calc (refCreationLog st calls).count c
      = (refCreationLog st calls).countP (fun c' => c' == c) := rfl
    _ ≤ (refCreationLog st calls).countP (fun c' => RefCall.key c' == c.key) := by
        apply List.countP_mono_left
        intro x _ hx
        have hxc : x = c := by simpa using hx
        simp [hxc]
    _ ≤ 1 := log_countP_le_one calls st c.key

/-- C5 witness: a reference declared with create false leaves the state
untouched at a concrete input. -/
theorem c5_stub_dedup_witness :
    createNodeRefs [("author", { typeName := "Author", create := false })]
      [("author", .scalar (.str "jane"))] emptyState = emptyState :=
  c5_stub_dedup.2.2.1 [("author", { typeName := "Author", create := false })]
    [("author", .scalar (.str "jane"))] emptyState (by decide)

/-! ## C3 -/

theorem addRefNode_graph (t f : String) (v : JsScalar) (st : PluginState) :
    (addRefNode t f v st).graph = st.graph := by
  simp only [addRefNode]
  split <;> rfl

theorem foldl_addRefNode_graph (t f : String) :
    ∀ (xs : List JsScalar) (st : PluginState),
      (xs.foldl (fun a x => addRefNode t f x a) st).graph = st.graph
  | [], _ => rfl
  | x :: rest, st => by
    simp only [List.foldl_cons]
    rw [foldl_addRefNode_graph t f rest (addRefNode t f x st), addRefNode_graph]

theorem createNodeRefs_graph :
    ∀ (refs : List (String × RefSpec)) (fields : List (String × JsValue))
      (st : PluginState), (createNodeRefs refs fields st).graph = st.graph
  | [], _, _ => rfl
  | fr :: rest, fields, st => by
    unfold createNodeRefs
    simp only [List.foldl_cons]
    have hrec :
        ∀ s : PluginState,
          (List.foldl
            (fun acc fr =>
              match lookupField fields fr.1 with
              | none => acc
              | some v =>
                if v.truthy && fr.2.create then
                  match v with
                  | .arr xs => xs.foldl (fun a x => addRefNode fr.2.typeName fr.1 x a) acc
                  | .scalar s => addRefNode fr.2.typeName fr.1 s acc
                else acc)
            s rest).graph = s.graph := fun s => createNodeRefs_graph rest fields s
    rw [hrec]
    cases lookupField fields fr.1 with
    | none => rfl
    | some v =>
      dsimp only
      by_cases hc : (v.truthy && fr.2.create) = true
      · rw [if_pos hc]
        cases v with
        | arr xs => exact foldl_addRefNode_graph _ _ xs st
        | scalar s => exact addRefNode_graph _ _ _ _
      · rw [if_neg hc]

theorem applyNodeRefs_graph (host : Host) (cfg : Config) (st : PluginState)
    (n : NodeRecord) : (applyNodeRefs host cfg st n).graph = st.graph :=
  createNodeRefs_graph _ _ _

theorem ingestOne_ok_graph (host : Host) (cfg : Config) (file : String)
    (st : PluginState) (opts : NodeRecord)
    (h : createNodeOptions host cfg file = .ok opts) :
    ∃ s, ingestOne host cfg file st = .ok s ∧ s.graph = st.graph ++ [opts] := by
  refine ⟨applyNodeRefs host cfg (addNodeToGraph st opts) opts, ?_, ?_⟩
  · unfold ingestOne
    rw [h]
    rfl
  · rw [applyNodeRefs_graph]
    rfl

theorem bulk_foldl_graph (host : Host) (cfg : Config) :
    ∀ (files : List String) (st : PluginState),
      (files.foldl
        (fun acc f =>
          match ingestOne host cfg f acc with
          | .ok s => s
          | .error _ => acc)
        st).graph =
      st.graph ++ files.filterMap fun f => (createNodeOptions host cfg f).toOption
  | [], st => by simp
  | f :: rest, st => by
    simp only [List.foldl_cons, List.filterMap_cons]
    cases h : createNodeOptions host cfg f with
    | ok opts =>
      obtain ⟨s, hs, hg⟩ := ingestOne_ok_graph host cfg f st opts h
      rw [hs]
      rw [bulk_foldl_graph host cfg rest s, hg, Except.toOption]
      simp
    | error e =>
      have hstep : ingestOne host cfg f st = .error e := by
        unfold ingestOne
        rw [h]
        rfl
      rw [hstep]
      rw [bulk_foldl_graph host cfg rest st, Except.toOption]

theorem bulk_findSome?_none (host : Host) (cfg : Config) :
    ∀ (files : List String),
      (files.findSome?
        (fun f =>
          match createNodeOptions host cfg f with
          | .error e => some e
          | .ok _ => none) = none) ↔
      ∀ f ∈ files, (createNodeOptions host cfg f).isOk = true
  | [] => by simp
  | f :: rest => by
    rw [List.findSome?_cons]
    cases h : createNodeOptions host cfg f with
    | ok opts =>
      simp only [h]
      rw [bulk_findSome?_none host cfg rest]
      constructor
      · intro hr g hg
        cases List.mem_cons.mp hg with
        | inl he => rw [he, h]; rfl
        | inr hm => exact hr g hm
      · intro hall g hg
        exact hall g (List.mem_cons_of_mem _ hg)
    | error e =>
      simp only [h]
      constructor
      · intro hcontra
        exact absurd hcontra (by simp)
      · intro hall
        have := hall f (List.mem_cons_self _ _)
        rw [h] at this
        exact absurd this (by simp [Except.isOk, Except.toBool])

/-- C3 counterexample host: the read of ctx slash v1 slash b.md rejects,
every other read succeeds. -/
def failingReadHost : Host :=
  { sampleHost with
    fsRead := fun o => if o = "ctx/v1/b.md" then none else some "content" }

/-- C3 counterexample: with three matched files whose middle read fails,
the bulk ingestion operation as a whole rejects (Promise.all is fail-fast),
so it does abort on that single file's failure, while the two sibling
nodes are still committed to the graph. -/
theorem c3_bulk_counterexample :
    (createNodes failingReadHost sampleCfg ["v1/a.md", "v1/b.md", "v1/c.md"]
        emptyState).2 = .error "read failed: ctx/v1/b.md" ∧
    ((createNodes failingReadHost sampleCfg ["v1/a.md", "v1/b.md", "v1/c.md"]
        emptyState).1.graph.map fun n => n.fileInfo.path) = ["v1/a.md", "v1/c.md"] := by
  exact ⟨by decide, by decide⟩

/-- C3 amended: bulk ingestion is atomic per file and failure-isolated in
its graph effects - the final graph extends the initial one with exactly
the nodes of the files whose per-file computation succeeded, so a failing
file registers nothing and siblings are ingested independently - but the
operation as a whole rejects whenever any file fails, rather than
continuing to a successful completion. -/
theorem c3_bulk_amended :
    ∀ (host : Host) (cfg : Config) (files : List String) (st : PluginState),
      (createNodes host cfg files st).1.graph =
        st.graph ++ (files.filterMap fun f => (createNodeOptions host cfg f).toOption) ∧
      ((createNodes host cfg files st).2 = .ok () ↔
        ∀ f ∈ files, (createNodeOptions host cfg f).isOk = true) := by
  intro host cfg files st
  constructor
  · exact bulk_foldl_graph host cfg files st
  · unfold createNodes
    rw [← bulk_findSome?_none host cfg files]
    cases files.findSome?
        (fun f =>
          match createNodeOptions host cfg f with
          | .error e => some e
          | .ok _ => none) with
    | none => simp
    | some e => simp

/-- C3 witness: the amended theorem evaluated on one readable file. -/
theorem c3_bulk_amended_witness :
    (createNodes sampleHost sampleCfg ["v1/a.md"] emptyState).2 = .ok () :=
  ((c3_bulk_amended sampleHost sampleCfg ["v1/a.md"] emptyState).2).mpr (by decide)

/-! ## C7 -/

/-- C7: a change event recomputes the full node record and replaces all
fields wholesale on every node carrying the same id; when the recomputed
record opts equals a node already in the graph (the unchanged-file case,
since the computation is a function of the file's location and content),
the node addressed by that id afterwards is opts itself, with content,
mime type and path identical to the original. -/
theorem c7_change_wholesale :
    ∀ (host : Host) (cfg : Config) (file : String) (st : PluginState)
      (opts : NodeRecord),
      createNodeOptions host cfg (slash file) = .ok opts →
      opts ∈ st.graph →
      ∃ st', stepChange host cfg file st = .ok st' ∧
        ∀ n ∈ st'.graph, n.id = opts.id →
          n = opts ∧
          n.internal.content = opts.internal.content ∧
          n.internal.mimeType = opts.internal.mimeType ∧
          n.path = opts.path := by
  intro host cfg file st opts h _hmem
  refine ⟨applyNodeRefs host cfg (updateNodeInGraph st opts) opts, ?_, ?_⟩
  · unfold stepChange
    rw [h]
    rfl
  · intro n hn hid
    rw [applyNodeRefs_graph] at hn
    simp only [updateNodeInGraph, List.mem_map] at hn
    obtain ⟨m, _hm, hfm⟩ := hn
    by_cases hcase : m.id = opts.id
    · rw [if_pos hcase] at hfm
      rw [← hfm]
      exact ⟨rfl, rfl, rfl, rfl⟩
    · rw [if_neg hcase] at hfm
      rw [← hfm] at hid
      exact absurd hid hcase

/-- Node record computed by createNodeOptions at the sample host for file
v1 slash a.md, used by the C7 witness. -/
def changeWitnessNode : NodeRecord :=
  { id := "v1/a.md"
    path := "/v1/a"
    fileInfo := { extension := ".md", directory := "v1", path := "v1/a.md", name := "a" }
    version := some "v1"
    sectionName := none
    internal :=
      { mimeType := "application/x-md", content := "content", origin := "ctx/v1/a.md" } }

/-- C7 witness: the change event on the concrete unchanged file. -/
theorem c7_change_wholesale_witness :
    ∃ st', stepChange sampleHost sampleCfg "v1/a.md"
        { graph := [changeWitnessNode], cache := [], stubs := [] } = .ok st' ∧
      ∀ n ∈ st'.graph, n.id = changeWitnessNode.id →
        n = changeWitnessNode ∧
        n.internal.content = changeWitnessNode.internal.content ∧
        n.internal.mimeType = changeWitnessNode.internal.mimeType ∧
        n.path = changeWitnessNode.path :=
  c7_change_wholesale sampleHost sampleCfg "v1/a.md"
    { graph := [changeWitnessNode], cache := [], stubs := [] } changeWitnessNode
    (by decide) (by decide)

/-! ## C9 -/

/-- Reference-state order: every cache key and every stub of the first
state is still present in the second. -/
def refsLE (s1 s2 : PluginState) : Prop :=
  s1.cache ⊆ s2.cache ∧ s1.stubs ⊆ s2.stubs

theorem refsLE_refl (st : PluginState) : refsLE st st :=
  ⟨fun _ h => h, fun _ h => h⟩

theorem refsLE_trans {a b c : PluginState} (h1 : refsLE a b) (h2 : refsLE b c) :
    refsLE a c :=
  ⟨fun _x hx => h2.1 (h1.1 hx), fun _x hx => h2.2 (h1.2 hx)⟩

theorem addRefNode_refsLE (t f : String) (v : JsScalar) (st : PluginState) :
    refsLE st (addRefNode t f v st) := by
  simp only [addRefNode]
  split
  · exact ⟨List.subset_cons_self _ _, List.subset_append_left _ _⟩
  · exact refsLE_refl st

theorem foldl_refsLE {β : Type} (g : PluginState → β → PluginState)
    (hg : ∀ st b, refsLE st (g st b)) :
    ∀ (l : List β) (st : PluginState), refsLE st (l.foldl g st)
  | [], st => refsLE_refl st
  | b :: rest, st => refsLE_trans (hg st b) (foldl_refsLE g hg rest (g st b))

theorem createNodeRefs_refsLE (refs : List (String × RefSpec))
    (fields : List (String × JsValue)) (st : PluginState) :
    refsLE st (createNodeRefs refs fields st) := by
  unfold createNodeRefs
  apply foldl_refsLE
  intro s fr
  dsimp only
  cases lookupField fields fr.1 with
  | none => exact refsLE_refl s
  | some v =>
    dsimp only
    by_cases hc : (v.truthy && fr.2.create) = true
    · rw [if_pos hc]
      cases v with
      | arr xs => exact foldl_refsLE _ (fun s' x => addRefNode_refsLE _ _ x s') xs s
      | scalar sc => exact addRefNode_refsLE _ _ _ _
    · rw [if_neg hc]
      exact refsLE_refl s

theorem stepEvent_refsLE (host : Host) (cfg : Config) (st : PluginState) (e : FsEvent) :
    refsLE st (stepEvent host cfg st e) := by
  cases e with
  | add f =>
    simp only [stepEvent, stepAdd, ingestOne]
    cases h : createNodeOptions host cfg (slash f) with
    | ok opts =>
      simp only [h, Except.map]
      exact refsLE_trans
        (show refsLE st (addNodeToGraph st opts) from ⟨fun _ hh => hh, fun _ hh => hh⟩)
        (createNodeRefs_refsLE _ _ _)
    | error e' =>
      simp only [h, Except.map]
      exact refsLE_refl st
  | change f =>
    simp only [stepEvent, stepChange]
    cases h : createNodeOptions host cfg (slash f) with
    | ok opts =>
      simp only [h, Except.map]
      exact refsLE_trans
        (show refsLE st (updateNodeInGraph st opts) from ⟨fun _ hh => hh, fun _ hh => hh⟩)
        (createNodeRefs_refsLE _ _ _)
    | error e' =>
      simp only [h, Except.map]
      exact refsLE_refl st
  | unlink f => exact ⟨fun _ hh => hh, fun _ hh => hh⟩

theorem runEvents_refsLE (host : Host) (cfg : Config) (events : List FsEvent)
    (st : PluginState) : refsLE st (runEvents host cfg events st) := by
  unfold runEvents
  exact foldl_refsLE _ (fun s e => stepEvent_refsLE host cfg s e) events st

/-- Host whose transformer reports an author field with value jane. -/
def refsHost : Host :=
  { sampleHost with transform := fun _ => [("author", .scalar (.str "jane"))] }

/-- Configuration declaring an Author reference with create enabled. -/
def refsCfg : Config :=
  { sampleCfg with refs := [("author", .obj (some "Author") (.bool true))] }

/-- C9: the reference-dedup cache and the stub set are additive-only: no
watch event - in particular no unlink - ever removes a cache entry or a
stub; concretely, adding a node that references jane and then unlinking it
leaves the stub and the cache entry in place with an empty graph. -/
theorem c9_cache_additive :
    (∀ (host : Host) (cfg : Config) (st : PluginState) (e : FsEvent),
      st.cache ⊆ (stepEvent host cfg st e).cache ∧
      st.stubs ⊆ (stepEvent host cfg st e).stubs) ∧
    (∀ (host : Host) (cfg : Config) (events : List FsEvent) (st : PluginState),
      st.cache ⊆ (runEvents host cfg events st).cache ∧
      st.stubs ⊆ (runEvents host cfg events st).stubs) ∧
    (∀ (cfg : Config) (file : String) (st : PluginState),
      (stepUnlink cfg file st).cache = st.cache ∧
      (stepUnlink cfg file st).stubs = st.stubs) ∧
    runEvents refsHost refsCfg [.add "v1/a.md", .unlink "v1/a.md"] emptyState =
      { graph := []
        cache := ["Author-author-jane"]
        stubs := [("Author", { id := .str "jane", title := .str "jane" })] } := by
  refine ⟨fun host cfg st e => stepEvent_refsLE host cfg st e,
    fun host cfg events st => runEvents_refsLE host cfg events st,
    fun cfg file st => ⟨rfl, rfl⟩, by decide⟩

/-- C9 witness: a cached key survives a concrete unlink event. -/
theorem c9_cache_additive_witness :
    "Author-author-jane" ∈ (runEvents refsHost refsCfg [.unlink "v1/a.md"]
      { graph := [], cache := ["Author-author-jane"], stubs := [] }).cache :=
  (c9_cache_additive.2.1 refsHost refsCfg [.unlink "v1/a.md"]
    { graph := [], cache := ["Author-author-jane"], stubs := [] }).1 (by decide)

/-! ## C4 -/

theorem chain'_linkRest : ∀ (p : String) (l : List SNode),
    List.Chain' linkRel (linkRest p l)
  | _, [] => List.chain'_nil
  | _, [n] => List.chain'_singleton _
  | p, a :: b :: rest => by
    show List.Chain' linkRel
      ({ a with prev := some p, next := some b.path } :: linkRest a.path (b :: rest))
    rw [List.chain'_cons']
    refine ⟨?_, chain'_linkRest a.path (b :: rest)⟩
    intro y hy
    cases rest with
    | nil =>
      rw [show linkRest a.path [b] = [{ b with prev := some a.path }] from rfl,
        List.head?_cons] at hy
      obtain rfl := Option.some.inj hy
      exact ⟨rfl, rfl⟩
    | cons c rest' =>
      rw [show linkRest a.path (b :: c :: rest') =
          { b with prev := some a.path, next := some c.path } ::
            linkRest b.path (c :: rest') from rfl, List.head?_cons] at hy
      obtain rfl := Option.some.inj hy
      exact ⟨rfl, rfl⟩

theorem chain'_linkChain : ∀ (l : List SNode), List.Chain' linkRel (linkChain l)
  | [] => List.chain'_nil
  | [n] => List.chain'_singleton _
  | a :: b :: rest => by
    show List.Chain' linkRel
      ({ a with next := some b.path } :: linkRest a.path (b :: rest))
    rw [List.chain'_cons']
    refine ⟨?_, chain'_linkRest a.path (b :: rest)⟩
    intro y hy
    cases rest with
    | nil =>
      rw [show linkRest a.path [b] = [{ b with prev := some a.path }] from rfl,
        List.head?_cons] at hy
      obtain rfl := Option.some.inj hy
      exact ⟨rfl, rfl⟩
    | cons c rest' =>
      rw [show linkRest a.path (b :: c :: rest') =
          { b with prev := some a.path, next := some c.path } ::
            linkRest b.path (c :: rest') from rfl, List.head?_cons] at hy
      obtain rfl := Option.some.inj hy
      exact ⟨rfl, rfl⟩

theorem linkChain_head_prev (l : List SNode) (hl : ∀ n ∈ l, n.prev = none) :
    ∀ n, (linkChain l).head? = some n → n.prev = none := by
  cases l with
  | nil =>
    intro n hn
    exact absurd hn (by simp [linkChain])
  | cons a tail =>
    cases tail with
    | nil =>
      intro n hn
      rw [show linkChain [a] = [a] from rfl, List.head?_cons] at hn
      obtain rfl := Option.some.inj hn
      exact hl a (List.mem_cons_self _ _)
    | cons b rest =>
      intro n hn
      rw [show linkChain (a :: b :: rest) =
          { a with next := some b.path } :: linkRest a.path (b :: rest) from rfl,
        List.head?_cons] at hn
      obtain rfl := Option.some.inj hn
      exact hl a (List.mem_cons_self _ _)

theorem linkRest_last_next : ∀ (p : String) (l : List SNode),
    (∀ n ∈ l, n.next = none) → ∀ n, (linkRest p l).getLast? = some n → n.next = none
  | _, [], _, n, hn => absurd hn (by simp [linkRest])
  | p, [m], hl, n, hn => by
    rw [show linkRest p [m] = [{ m with prev := some p }] from rfl,
      List.getLast?_singleton] at hn
    obtain rfl := Option.some.inj hn
    exact hl m (List.mem_cons_self _ _)
  | p, a :: b :: rest, hl, n, hn => by
    rw [show linkRest p (a :: b :: rest) =
        { a with prev := some p, next := some b.path } ::
          linkRest a.path (b :: rest) from rfl] at hn
    have hstep :
        ({ a with prev := some p, next := some b.path } ::
          linkRest a.path (b :: rest)).getLast? = (linkRest a.path (b :: rest)).getLast? := by
      cases hrec : linkRest a.path (b :: rest) with
      | nil =>
        cases rest <;> simp [linkRest] at hrec
      | cons x xs =>
        rw [List.getLast?_cons_cons]
    rw [hstep] at hn
    exact linkRest_last_next a.path (b :: rest)
      (fun m hm => hl m (List.mem_cons_of_mem _ hm)) n hn

theorem linkChain_last_next (l : List SNode) (hl : ∀ n ∈ l, n.next = none) :
    ∀ n, (linkChain l).getLast? = some n → n.next = none := by
  cases l with
  | nil =>
    intro n hn
    exact absurd hn (by simp [linkChain])
  | cons a tail =>
    cases tail with
    | nil =>
      intro n hn
      rw [show linkChain [a] = [a] from rfl, List.getLast?_singleton] at hn
      obtain rfl := Option.some.inj hn
      exact hl a (List.mem_cons_self _ _)
    | cons b rest =>
      intro n hn
      rw [show linkChain (a :: b :: rest) =
          { a with next := some b.path } :: linkRest a.path (b :: rest) from rfl] at hn
      have hstep :
          ({ a with next := some b.path } ::
            linkRest a.path (b :: rest)).getLast? = (linkRest a.path (b :: rest)).getLast? := by
        cases hrec : linkRest a.path (b :: rest) with
        | nil =>
          cases rest <;> simp [linkRest] at hrec
        | cons x xs =>
          rw [List.getLast?_cons_cons]
      rw [hstep] at hn
      exact linkRest_last_next a.path (b :: rest)
        (fun m hm => hl m (List.mem_cons_of_mem _ hm)) n hn

/-- C4: within a sidebar section the claim requires ties to preserve the
original match order, but the comparator sortSection hands to
Array.prototype.sort never returns 0: on two nodes of equal weight it
returns -1 in both orientations, asserting each node sorts strictly before
the other. It is therefore not a consistent comparison function, ES2019
leaves the resulting sort order implementation-defined on ties, and V8's
TimSort in fact reverses a run of tied nodes, so the code does not
guarantee the claimed tie order. -/
theorem c4_comparator_inconsistent :
    (∀ a b : SNode, a.weight = b.weight →
      jsComparator a b = -1 ∧ jsComparator b a = -1) ∧
    (∀ a b : SNode, jsComparator a b ≠ 0) ∧
    jsComparator { path := "/v1/b", weight := 1 } { path := "/v1/c", weight := 1 } = -1 ∧
    jsComparator { path := "/v1/c", weight := 1 } { path := "/v1/b", weight := 1 } = -1 := by
  refine ⟨?_, ?_, by decide, by decide⟩
  · intro a b h
    constructor <;> (simp only [jsComparator]; split <;> omega)
  · intro a b
    simp only [jsComparator]
    split <;> omega

/-- C4 witness: the inconsistency at a concrete tied pair, matched in the
order b then c. -/
theorem c4_comparator_inconsistent_witness :
    jsComparator { path := "/v1/b", weight := 1 } { path := "/v1/c", weight := 1 } = -1 ∧
    jsComparator { path := "/v1/c", weight := 1 } { path := "/v1/b", weight := 1 } = -1 :=
  c4_comparator_inconsistent.1 { path := "/v1/b", weight := 1 }
    { path := "/v1/c", weight := 1 } (by decide)
